import Mathlib

/-!
Verification of the impedance-tensor core of `mtpy/core/transfer_function/z.py`.

The Python class `Z` keeps a frequency-indexed sequence of 2×2 complex
matrices (plus two real standard-deviation arrays and a frequency axis) in
canonical "mt" field units inside a container inherited from `TFBase`.
We embed the state as a record of optional lists of 2×2 matrices and each
method as a function on that record.  Parts of the repository that are
referenced by `z.py` but whose code is not in the sources we were given
(`TFBase`, the unit-factor table, the distortion and phase-tensor
collaborators) are modelled from the specification; the doc comment of each
such definition says so.  Numeric arrays are embedded over ℝ/ℂ (exact
arithmetic standing in for floating point), fallible methods return
`Except PyError`.
-/

namespace MtpyZ

/-- A 2×2 matrix stored as four named entries, in the fixed component layout
of the source: xx=(0,0), xy=(0,1), yx=(1,0), yy=(1,1). -/
@[ext]
structure Mat2 (α : Type) where
  xx : α
  xy : α
  yx : α
  yy : α

/-- Entrywise map over a 2×2 matrix (numpy broadcasting of a unary op). -/
def Mat2.map {α β : Type} (f : α → β) (m : Mat2 α) : Mat2 β :=
  ⟨f m.xx, f m.xy, f m.yx, f m.yy⟩

/-- Entrywise combination of two 2×2 matrices (numpy broadcasting of a
binary op such as `+` or `-`). -/
def Mat2.zipWith {α β γ : Type} (f : α → β → γ) (a : Mat2 α) (b : Mat2 β) : Mat2 γ :=
  ⟨f a.xx b.xx, f a.xy b.xy, f a.yx b.yx, f a.yy b.yy⟩

/-- Positional indexing `array[i, j]` with the layout of the source. -/
def Mat2.get {α : Type} (m : Mat2 α) : Fin 2 → Fin 2 → α
  | 0, 0 => m.xx
  | 0, 1 => m.xy
  | 1, 0 => m.yx
  | 1, 1 => m.yy

/-- All four entries satisfy a predicate. -/
def Mat2.Forall {α : Type} (p : α → Prop) (m : Mat2 α) : Prop :=
  p m.xx ∧ p m.xy ∧ p m.yx ∧ p m.yy

/-- Determinant of a 2×2 matrix, the mathematical value that
`np.linalg.det` computes on a 2×2 input. -/
def det2 (m : Mat2 ℂ) : ℂ := m.xx * m.yy - m.xy * m.yx

/-- The Python exceptions raised by the embedded methods. -/
inductive PyError where
  | typeError
  | valueError
  | invalidUnit
  | shapeMismatch (expected received : ℕ)
deriving DecidableEq

/-- Modelled from the spec: `MT_TO_OHM_FACTOR`, the fixed conversion
constant between resistance units and canonical field units, imported by
`z.py` from `mtpy.core.transfer_function` which is not among the given
sources.  The spec fixes only that it is a single positive constant
(≈ 1/(4π·10⁻⁴), the μ0-based E/B to E/H conversion); we use that closed
form. -/
noncomputable def MT_TO_OHM_FACTOR : ℝ := 10000 / (4 * Real.pi)

/-- Modelled from the spec: the immutable unit table `IMPEDANCE_UNITS`
mapping a recognized unit key to its scale factor, `{field: 1.0,
resistance: <fixed conversion constant>}` with keys "mt" and "ohm". -/
noncomputable def IMPEDANCE_UNITS (u : String) : Option ℝ :=
  if u = "mt" then some 1 else if u = "ohm" then some MT_TO_OHM_FACTOR else none

/-- Python `str.lower()` on the unit key (the keys at play are ASCII). -/
def pyLower (u : String) : String :=
  String.mk (u.data.map Char.toLower)

/-- The units-setter guard of `Z.units`: the lowered key must be in the
unit table (`value.lower() not in self._unit_factors.keys()`). -/
def unitsOk (u : String) : Bool :=
  pyLower u == "mt" || pyLower u == "ohm"

/-- The state of a `Z` object: the stored (canonical-unit) arrays of the
underlying container plus the declared display unit.  Modelled from the
spec where the container is concerned: `TFBase` is not among the given
sources; the spec says the container stores the tensor, the two error
arrays and the frequency axis, and signals absence distinctly from a
zero-filled array, which we render with `Option`. -/
structure ZState where
  units : String
  tf : Option (List (Mat2 ℂ))
  tf_error : Option (List (Mat2 ℝ))
  tf_model_error : Option (List (Mat2 ℝ))
  frequency : Option (List ℝ)

/-- `Z._scale_factor`: the table entry for the stored unit key.  The Python
lookup `self._unit_factors[self._units]` is by the exact stored key (a
`KeyError` escapes for a recognized but non-lowercase key); we use the
table with a default, and state theorems only at the exact keys "mt" and
"ohm". -/
noncomputable def ZState.scale_factor (s : ZState) : ℝ :=
  (IMPEDANCE_UNITS s.units).getD 1

/-- `TFBase._has_tf`, modelled from the spec ("is populated" predicate). -/
def ZState.hasTF (s : ZState) : Bool := s.tf.isSome

/-- `TFBase._has_tf_error`, modelled from the spec. -/
def ZState.hasTFError (s : ZState) : Bool := s.tf_error.isSome

/-- `TFBase._has_tf_model_error`, modelled from the spec. -/
def ZState.hasTFModelError (s : ZState) : Bool := s.tf_model_error.isSome

/-- `TFBase._has_frequency`, modelled from the spec. -/
def ZState.hasFrequency (s : ZState) : Bool := s.frequency.isSome

/-- `TFBase._is_empty`, modelled from the spec: no transfer-function data
is populated yet. -/
def ZState.isEmpty (s : ZState) : Bool :=
  !s.hasTF && !s.hasTFError && !s.hasTFModelError

/-- The `Z.z` property getter: stored canonical values divided by the unit
scale factor. -/
noncomputable def ZState.z (s : ZState) : Option (List (Mat2 ℂ)) :=
  s.tf.map (fun l => l.map (Mat2.map (fun c => c / (s.scale_factor : ℂ))))

/-- The `Z.z_error` property getter. -/
noncomputable def ZState.z_error (s : ZState) : Option (List (Mat2 ℝ)) :=
  s.tf_error.map (fun l => l.map (Mat2.map (fun c => c / s.scale_factor)))

/-- The `Z.z_model_error` property getter. -/
noncomputable def ZState.z_model_error (s : ZState) : Option (List (Mat2 ℝ)) :=
  s.tf_model_error.map (fun l => l.map (Mat2.map (fun c => c / s.scale_factor)))

/-- Modelled from the spec: `TFBase._validate_array_input` (the validator
lives in `base.py`, not among the given sources).  `None` is passed
through (the setter then quietly returns); with an established expected
length a mismatched array is rejected with a `ShapeMismatchError` naming
the expected and the received length. -/
def validate_array_input {α : Type} (x : Option (List α)) (old_shape : Option ℕ) :
    Except PyError (Option (List α)) :=
  match x with
  | none => .ok none
  | some l =>
    match old_shape with
    | none => .ok (some l)
    | some n =>
      if l.length = n then .ok (some l)
      else .error (.shapeMismatch n l.length)

/-- The `Z.z` property setter (source lines 132–155): computes the expected
shape from the present tensor, else from the frequency axis, validates,
quietly returns on `None`, and stores the array verbatim (no unit
scaling happens in this setter). -/
def ZState.set_z (s : ZState) (z : Option (List (Mat2 ℂ))) : Except PyError ZState :=
  let old_shape : Option ℕ :=
    if s.hasTF then s.tf.map List.length
    else if s.hasFrequency then s.frequency.map List.length
    else none
  match validate_array_input z old_shape with
  | .error e => .error e
  | .ok none => .ok s
  | .ok (some l) =>
    if s.isEmpty then .ok { s with tf := some l }    -- _initialize(tf=z)
    else .ok { s with tf := some l }                 -- loc[comps] = z

/-- The `Z.z_error` property setter (source lines 167–190).  Note the
source's inverted guard: the expected shape is read from the stored
error array when the error array is NOT yet populated (then it has no
shape to offer, rendered as `none`). -/
def ZState.set_z_error (s : ZState) (x : Option (List (Mat2 ℝ))) : Except PyError ZState :=
  let old_shape : Option ℕ :=
    if !s.hasTFError then s.tf_error.map List.length
    else if s.hasFrequency then s.frequency.map List.length
    else none
  match validate_array_input x old_shape with
  | .error e => .error e
  | .ok none => .ok s
  | .ok (some l) =>
    if s.isEmpty then .ok { s with tf_error := some l }     -- _initialize(tf_error=...)
    else .ok { s with tf_error := some l }

/-- The `Z.z_model_error` property setter (source lines 202–233).  Two
quirks of the source are kept: the expected shape is read from the
`transfer_function_error` array (not the model-error array), and on an
empty container the first write initializes the container's `tf_error`
field (`self._initialize(tf_error=z_model_error)`), not the model-error
field. -/
def ZState.set_z_model_error (s : ZState) (x : Option (List (Mat2 ℝ))) :
    Except PyError ZState :=
  let old_shape : Option ℕ :=
    if !s.hasTFModelError then s.tf_error.map List.length
    else if s.hasFrequency then s.frequency.map List.length
    else none
  match validate_array_input x old_shape with
  | .error e => .error e
  | .ok none => .ok s
  | .ok (some l) =>
    if s.isEmpty then .ok { s with tf_error := some l }     -- _initialize(tf_error=...)
    else .ok { s with tf_model_error := some l }

/-- Lengths present among the given optional arrays. -/
def optLen {α : Type} (x : Option (List α)) : Option ℕ := x.map List.length

/-- All present leading dimensions agree. -/
def lensConsistent (ls : List (Option ℕ)) : Bool :=
  match ls.filterMap id with
  | [] => true
  | n :: rest => rest.all (· == n)

/-- The `Z.__init__` constructor: validates the unit key, scales every
supplied array by the unit's factor into canonical storage, and hands the
arrays to the container.  The container-side shape check is modelled from
the spec (invariant: present arrays must share their leading dimension,
else the construction is rejected). -/
noncomputable def Z_mk (z : Option (List (Mat2 ℂ))) (z_error : Option (List (Mat2 ℝ)))
    (frequency : Option (List ℝ)) (z_model_error : Option (List (Mat2 ℝ)))
    (units : String) : Except PyError ZState :=
  if unitsOk units then
    let sc := (IMPEDANCE_UNITS units).getD 1
    let z' := z.map (fun l => l.map (Mat2.map (fun c => c * (sc : ℂ))))
    let ze' := z_error.map (fun l => l.map (Mat2.map (fun c => c * sc)))
    let zme' := z_model_error.map (fun l => l.map (Mat2.map (fun c => c * sc)))
    if lensConsistent [optLen z', optLen ze', optLen zme', optLen frequency] then
      .ok ⟨units, z', ze', zme', frequency⟩
    else .error .valueError
  else .error .invalidUnit

/-- The `Z.units` setter applied to an existing object (used by
`remove_distortion`): validates the key and records it; the stored
canonical data is untouched. -/
def ZState.set_units (s : ZState) (v : String) : Except PyError ZState :=
  if unitsOk v then .ok { s with units := v } else .error .invalidUnit

/-- `np.radians`: degrees to radians. -/
noncomputable def radians (x : ℝ) : ℝ := x * (Real.pi / 180)

/-- `np.rad2deg` / `np.degrees`: radians to degrees. -/
noncomputable def rad2deg (x : ℝ) : ℝ := x * (180 / Real.pi)

/-- The `Z.resistivity` property: `np.abs(x)**2 / self.frequency * 0.2`
applied along the frequency axis to `self.z * self._scale_factor`.
The source guards only on `self.z`; the division by `self.frequency`
presupposes the frequency axis is populated, which we render by guarding
on both. -/
noncomputable def ZState.resistivity (s : ZState) : Option (List (Mat2 ℝ)) :=
  match s.z, s.frequency with
  | some zl, some fl =>
    some (List.zipWith
      (fun zm f => zm.map (fun c => Complex.abs (c * (s.scale_factor : ℂ)) ^ 2 / f * 0.2))
      zl fl)
  | _, _ => none

/-- The `Z.phase` property: `np.rad2deg(np.angle(self.z * self._scale_factor))`. -/
noncomputable def ZState.phase (s : ZState) : Option (List (Mat2 ℝ)) :=
  s.z.map (fun l => l.map (fun zm =>
    zm.map (fun c => rad2deg (Complex.arg (c * (s.scale_factor : ℂ))))))

/-- `Z._get_component`'s index table `{"x": 0, "y": 1}`. -/
def index_dict (c : Char) : Option (Fin 2) :=
  if c = 'x' then some 0 else if c = 'y' then some 1 else none

/-- `Z._get_component`: look up `comp[-2]` and `comp[-1]` in the index
table and slice `array[:, ii, jj]`; `None` arrays pass through. -/
def get_component (comp : String) (array : Option (List (Mat2 ℝ))) : Option (List ℝ) :=
  match array with
  | none => none
  | some l =>
    match index_dict (comp.toList.getD (comp.length - 2) ' '),
          index_dict (comp.toList.getD (comp.length - 1) ' ') with
    | some i, some j => some (l.map (fun m => m.get i j))
    | _, _ => none

/-- The component label "xx". -/
def compXX : String := "xx"

/-- `Z.res_xx`. -/
noncomputable def ZState.res_xx (s : ZState) : Option (List ℝ) :=
  get_component compXX s.resistivity

/-- `Z.phase_xx`. -/
noncomputable def ZState.phase_xx (s : ZState) : Option (List ℝ) :=
  get_component compXX s.phase

/-- The `Z.det_error` property: present only with an error array (its body
additionally reads `self.z` and `self.det`, so the tensor must be present
too).  Per frequency it is
`scale_factor * (|det(z + z_error) - det(z - z_error)| / 2) ** 0.5`
computed on the display-unit values `self.z` and `self.z_error`: Python's
`**` binds tighter than `*`, so the scale factor multiplies the square
root from outside; the real `** 0.5` of the nonnegative operand is
`Real.sqrt`. -/
noncomputable def ZState.det_error (s : ZState) : Option (List ℝ) :=
  match s.z, s.z_error with
  | some zl, some el =>
    some (List.zipWith
      (fun zm em =>
        s.scale_factor *
          Real.sqrt
            (Complex.abs
              (det2 (Mat2.zipWith (fun a b => a + b) zm (em.map Complex.ofReal)) -
               det2 (Mat2.zipWith (fun a b => a - b) zm (em.map Complex.ofReal))) / 2))
      zl el)
  | _, _ => none

/-- The `Z.det_model_error` property: the same finite-difference formula on
the model-error array, without the scale factor. -/
noncomputable def ZState.det_model_error (s : ZState) : Option (List ℝ) :=
  match s.z, s.z_model_error with
  | some zl, some el =>
    some (List.zipWith
      (fun zm em =>
        Real.sqrt
          (Complex.abs
            (det2 (Mat2.zipWith (fun a b => a + b) zm (em.map Complex.ofReal)) -
             det2 (Mat2.zipWith (fun a b => a - b) zm (em.map Complex.ofReal))) / 2))
      zl el)
  | _, _ => none

/-- A static-shift factor argument: a plain number or a sequence
(`float or iterable list or array` in the source). -/
inductive SSFactor where
  | scalar (x : ℝ)
  | seq (xs : List ℝ)

/-- `remove_ss._validate_factor_single`: `np.repeat(float(factor),
len(self.z))`.  `float` of a scalar succeeds; `float` of a one-element
array extracts the value; `float` of a longer sequence raises. -/
def validate_factor_single (n : ℕ) (f : SSFactor) : Except PyError (List ℝ) :=
  match f with
  | .scalar x => .ok (List.replicate n x)
  | .seq [x] => .ok (List.replicate n x)
  | .seq _ => .error .typeError

/-- `remove_ss._validate_ss_input`.  The closure checks
`np.iterable(factor)` but, in its one-element branch, inspects
`len(reduce_res_factor_x)` — the captured x-factor — regardless of which
factor is being validated; `len` of a non-iterable scalar raises a
`TypeError`.  `n` is `len(self.z)`. -/
def validate_ss_input (n : ℕ) (reduce_res_factor_x factor : SSFactor) :
    Except PyError (List ℝ) :=
  match
    (match factor with
     | .scalar _ => validate_factor_single n factor
     | .seq xs =>
       match reduce_res_factor_x with
       | .scalar _ => .error .typeError        -- len() of a float
       | .seq ys =>
         if ys.length = 1 then validate_factor_single n factor
         else .ok xs) with
  | .error e => .error e
  | .ok x_factor =>
    if x_factor.length = n then .ok x_factor else .error .valueError

/-- `Z.remove_ss` with `inplace=False` (the claims use only this branch):
validate both factors against the captured x-factor, take elementwise
square roots, divide the xx/xy row of `self.z * scale` by the x factors
and the yx/yy row by the y factors, divide the result by the scale
factor, and return a fresh `Z` built from the corrected display tensor
together with the original display error arrays, frequency and units. -/
noncomputable def ZState.remove_ss (s : ZState)
    (reduce_res_factor_x reduce_res_factor_y : SSFactor) : Except PyError ZState :=
  match s.z with
  | none => .error .typeError                   -- len(None) in the validators
  | some zdisp =>
    match validate_ss_input zdisp.length reduce_res_factor_x reduce_res_factor_x with
    | .error e => .error e
    | .ok xl =>
      match validate_ss_input zdisp.length reduce_res_factor_x reduce_res_factor_y with
      | .error e => .error e
      | .ok yl =>
        let x_factors := xl.map Real.sqrt
        let y_factors := yl.map Real.sqrt
        let sc := s.scale_factor
        let z_corrected := List.zipWith
          (fun (zm : Mat2 ℂ) (p : ℝ × ℝ) =>
            Mat2.mk (zm.xx * (sc : ℂ) / (p.1 : ℂ)) (zm.xy * (sc : ℂ) / (p.1 : ℂ))
                    (zm.yx * (sc : ℂ) / (p.2 : ℂ)) (zm.yy * (sc : ℂ) / (p.2 : ℂ)))
          zdisp (x_factors.zip y_factors)
        let z_corrected := z_corrected.map (Mat2.map (fun c => c / (sc : ℂ)))
        Z_mk (some z_corrected) s.z_error s.frequency s.z_model_error s.units

/-- `Z.remove_distortion` with `inplace=False` and an explicitly supplied
distortion matrix.  The correction arithmetic is delegated to
`remove_distortion_from_z_object` (in `z_analysis`, not among the given
sources, and treated by the spec as an opaque collaborator), so its
output `(z_corrected, z_corrected_error)` — in canonical units — is taken
here as an argument.  The source rescales both by the scale factor,
builds a fresh `Z` WITHOUT passing `units` (so the constructor runs with
the default "mt" and scales by 1), carries `self.z_model_error` over, and
only afterwards assigns `z_object.units = self.units`. -/
noncomputable def ZState.remove_distortion_new (s : ZState)
    (z_corrected : List (Mat2 ℂ)) (z_corrected_error : List (Mat2 ℝ)) :
    Except PyError ZState :=
  match Z_mk (some (z_corrected.map (Mat2.map (fun c => c * (s.scale_factor : ℂ)))))
      (some (z_corrected_error.map (Mat2.map (fun c => c * s.scale_factor))))
      s.frequency s.z_model_error ("mt") with
  | .error e => .error e
  | .ok obj => obj.set_units s.units

/-- `Z._compute_z_error`:
`np.abs(np.sqrt(self.frequency * res_error.T * 250).T *
np.tan(np.radians(phase_error)))`; returns `None` when `res_error` is
`None`.  (The source would fail if only `phase_error` were `None`; we
return `None` there as well, a case no claim exercises.) -/
noncomputable def compute_z_error (frequency : List ℝ)
    (res_error phase_error : Option (List (Mat2 ℝ))) : Option (List (Mat2 ℝ)) :=
  match res_error, phase_error with
  | some re, some pe =>
    some (List.zipWith
      (fun f rp =>
        Mat2.zipWith
          (fun r p => |Real.sqrt (f * r * 250) * Real.tan (radians p)|)
          rp.1 rp.2)
      frequency (re.zip pe))
  | _, _ => none

/-- `Z.set_resistivity_phase`: quietly returns if resistivity, phase or
frequency is `None`; sets the (positivity-validated) frequency first,
then reconstructs the tensor as
`sqrt(5.0 * frequency * resistivity) * exp(1j * radians(phase))`
through the `z` setter, and finally assigns both reconstructed error
arrays through their setters.  The frequency validator lives in
`base.py`, not among the given sources; it is modelled from the spec
("validated for positivity/shape"). -/
noncomputable def ZState.set_resistivity_phase (s : ZState)
    (resistivity phase : Option (List (Mat2 ℝ))) (frequency : Option (List ℝ))
    (res_error phase_error res_model_error phase_model_error :
      Option (List (Mat2 ℝ)) := none) : Except PyError ZState :=
  match resistivity, phase, frequency with
  | some res, some pha, some freq =>
    if ∀ f ∈ freq, 0 < f then
      let s1 : ZState := { s with frequency := some freq }
      let abs_z := List.zipWith
        (fun f rm => Mat2.map (fun r => Real.sqrt (5.0 * f * r)) rm) freq res
      let zarr := List.zipWith
        (fun (am pm : Mat2 ℝ) =>
          Mat2.zipWith
            (fun (a p : ℝ) =>
              Complex.ofReal a * Complex.exp (Complex.I * Complex.ofReal (radians p)))
            am pm)
        abs_z pha
      match s1.set_z (some zarr) with
      | .error e => .error e
      | .ok s2 =>
        match s2.set_z_error (compute_z_error freq res_error phase_error) with
        | .error e => .error e
        | .ok s3 =>
          s3.set_z_model_error (compute_z_error freq res_model_error phase_model_error)
    else .error .valueError
  | _, _, _ => .ok s

/-- `Z.estimate_dimensionality`.  The phase-tensor collaborator supplying
`eccentricity` and `skew` is opaque (`pt.py` is not among the given
sources), so the two sequences are taken as inputs, modelled from the
spec.  The source initializes every frequency to 1, assigns 2 where the
eccentricity exceeds its threshold, then assigns 3 where `|skew|`
exceeds its threshold (the later assignment overwrites). -/
noncomputable def estimate_dimensionality (skew eccentricity : List ℝ)
    (skew_threshold eccentricity_threshold : ℝ) : List ℕ :=
  let dim := eccentricity.map (fun e => if e > eccentricity_threshold then 2 else 1)
  List.zipWith (fun sk d => if |sk| > skew_threshold then 3 else d) skew dim

/-! ### Helper lemmas -/

lemma MT_TO_OHM_FACTOR_pos : 0 < MT_TO_OHM_FACTOR := by
  unfold MT_TO_OHM_FACTOR
  positivity

lemma one_lt_MT_TO_OHM_FACTOR : 1 < MT_TO_OHM_FACTOR := by
  unfold MT_TO_OHM_FACTOR
  rw [lt_div_iff₀ (by positivity)]
  nlinarith [Real.pi_lt_d2]

lemma unitsOk_mt : unitsOk ("mt") = true := by decide

lemma unitsOk_ohm : unitsOk ("ohm") = true := by decide

lemma scale_factor_mt {s : ZState} (h : s.units = "mt") : s.scale_factor = 1 := by
  simp [ZState.scale_factor, IMPEDANCE_UNITS, h]

lemma scale_factor_ohm {s : ZState} (h : s.units = "ohm") :
    s.scale_factor = MT_TO_OHM_FACTOR := by
  simp [ZState.scale_factor, IMPEDANCE_UNITS, h]

lemma scale_factor_pos (s : ZState) : 0 < s.scale_factor := by
  unfold ZState.scale_factor IMPEDANCE_UNITS
  split_ifs <;> simp [MT_TO_OHM_FACTOR_pos]

lemma scale_factor_ne_zero (s : ZState) : s.scale_factor ≠ 0 :=
  ne_of_gt (scale_factor_pos s)

lemma scale_factor_complex_ne_zero (s : ZState) : (s.scale_factor : ℂ) ≠ 0 :=
  Complex.ofReal_ne_zero.mpr (scale_factor_ne_zero s)

lemma Mat2.map_map {α β γ : Type} (f : α → β) (g : β → γ) (m : Mat2 α) :
    (m.map f).map g = m.map (fun x => g (f x)) := rfl

lemma Mat2.map_id {α : Type} (m : Mat2 α) : m.map (fun x => x) = m := rfl

/-! ### Theorems for the claims -/

/-- Construction with only a frequency axis succeeds and populates exactly
the frequency field. -/
lemma Z_mk_freq_only {u : String} (hu : unitsOk u = true) (freq : List ℝ) :
    Z_mk none none (some freq) none u = .ok ⟨u, none, none, none, some freq⟩ := by
  simp [Z_mk, hu, lensConsistent, optLen]

/-- Construction of an empty object succeeds. -/
lemma Z_mk_empty {u : String} (hu : unitsOk u = true) :
    Z_mk none none none none u = .ok ⟨u, none, none, none, none⟩ := by
  simp [Z_mk, hu, lensConsistent, optLen]

/-- C6: assigning a tensor whose leading dimension differs from the length
of the established frequency axis is rejected with a shape-mismatch error
naming the expected and the received length, and (the setter being
validate-before-mutate) no state is produced. -/
theorem C6_shape_mismatch_rejection (u : String) (freq : List ℝ)
    (zM : List (Mat2 ℂ)) (s : ZState)
    (hu : unitsOk u = true)
    (hmk : Z_mk none none (some freq) none u = .ok s)
    (hne : zM.length ≠ freq.length) :
    s.set_z (some zM) = .error (.shapeMismatch freq.length zM.length) := by
  rw [Z_mk_freq_only hu freq] at hmk
  cases hmk
  simp [ZState.set_z, ZState.hasTF, ZState.hasFrequency, validate_array_input, hne]

/-- Witness for C6 at a concrete input: a frequency axis of length 1 and a
tensor of length 2. -/
theorem C6_shape_mismatch_rejection_witness :
    unitsOk ("mt") = true ∧
    Z_mk none none (some [1]) none ("mt") =
      .ok ⟨"mt", none, none, none, some [1]⟩ ∧
    ([Mat2.mk (1 : ℂ) 1 1 1, Mat2.mk 1 1 1 1].length ≠ [(1 : ℝ)].length) ∧
    ZState.set_z ⟨"mt", none, none, none, some [1]⟩
        (some [Mat2.mk (1 : ℂ) 1 1 1, Mat2.mk 1 1 1 1]) =
      .error (.shapeMismatch 1 2) :=
  ⟨unitsOk_mt, Z_mk_freq_only unitsOk_mt [1], by decide,
    C6_shape_mismatch_rejection ("mt") [1] _ _ unitsOk_mt
      (Z_mk_freq_only unitsOk_mt [1]) (by decide)⟩

/-- C9: on an object constructed empty, the first write through the
`z_model_error` setter initializes the container's `tf_error` field, so
that immediately afterwards `z_model_error` reads `None` while `z_error`
returns the assigned values divided by the unit scale factor. -/
theorem C9_model_error_setter_initializes_tf_error (u : String)
    (e : List (Mat2 ℝ)) (s : ZState)
    (hmk : Z_mk none none none none u = .ok s) :
    ∃ s2, s.set_z_model_error (some e) = .ok s2 ∧
      s2.z_model_error = none ∧
      s2.z_error = some (e.map (Mat2.map (fun x => x / s.scale_factor))) := by
  have hu : unitsOk u = true := by
    by_contra h
    simp [Z_mk, h] at hmk
  rw [Z_mk_empty hu] at hmk
  cases hmk
  refine ⟨⟨u, none, some e, none, none⟩, ?_, ?_, ?_⟩
  · simp [ZState.set_z_model_error, ZState.hasTFModelError, ZState.hasFrequency,
      validate_array_input, ZState.isEmpty, ZState.hasTF, ZState.hasTFError]
  · simp [ZState.z_model_error]
  · simp [ZState.z_error, ZState.scale_factor]

/-- Witness for C9 at a concrete input. -/
theorem C9_model_error_setter_initializes_tf_error_witness :
    Z_mk none none none none ("mt") = .ok ⟨"mt", none, none, none, none⟩ ∧
    (∃ s2, ZState.set_z_model_error ⟨"mt", none, none, none, none⟩
        (some [Mat2.mk (1 : ℝ) 1 1 1]) = .ok s2 ∧
      s2.z_model_error = none ∧
      s2.z_error = some ([Mat2.mk (1 : ℝ) 1 1 1].map
        (Mat2.map (fun x => x / ZState.scale_factor ⟨"mt", none, none, none, none⟩)))) :=
  ⟨Z_mk_empty unitsOk_mt,
    C9_model_error_setter_initializes_tf_error ("mt") [Mat2.mk 1 1 1 1] _
      (Z_mk_empty unitsOk_mt)⟩

/-- C10: the one-element-sequence branch of `remove_ss`'s factor validation
inspects the captured `reduce_res_factor_x` regardless of which factor it
is validating, so a scalar x-factor together with a one-element-sequence
y-factor raises a `TypeError` (`len()` of a non-iterable) instead of
broadcasting or raising the documented invalid-factor error. -/
theorem C10_remove_ss_validation_closure_bug (s : ZState)
    (zl : List (Mat2 ℂ)) (c v : ℝ)
    (h : s.tf = some zl) :
    s.remove_ss (.scalar c) (.seq [v]) = .error .typeError := by
  simp [ZState.remove_ss, ZState.z, h, validate_ss_input, validate_factor_single]

/-- Witness for C10 at a concrete input. -/
theorem C10_remove_ss_validation_closure_bug_witness :
    (⟨"mt", some [Mat2.mk 1 1 1 1], none, none, none⟩ : ZState).tf =
      some [Mat2.mk 1 1 1 1] ∧
    ZState.remove_ss ⟨"mt", some [Mat2.mk 1 1 1 1], none, none, none⟩
      (.scalar 2) (.seq [3]) = .error .typeError :=
  ⟨rfl, C10_remove_ss_validation_closure_bug _ [Mat2.mk 1 1 1 1] 2 3 rfl⟩

/-- C1 (counterexample): the unit round-trip through the property
setter/getter fails as stated.  With units "ohm", assigning the all-ones
tensor through the `z` setter and reading the `z` property back returns
the tensor divided by the conversion factor, not the tensor itself: the
setter stores its argument verbatim (no multiplication by the scale
factor), while the getter divides. -/
theorem C1_unit_roundtrip_counterexample :
    Except.map ZState.z
      ((Z_mk none none none none ("ohm")).bind
        (fun s => s.set_z (some [Mat2.mk 1 1 1 1]))) ≠
      .ok (some [Mat2.mk (1 : ℂ) 1 1 1]) := by
  intro hcontra
  rw [Z_mk_empty unitsOk_ohm] at hcontra
  simp only [Except.bind, ZState.set_z, ZState.hasTF, ZState.hasFrequency,
    Option.isSome, validate_array_input, ZState.isEmpty, ZState.hasTFError,
    ZState.hasTFModelError, Bool.not_false, Bool.and_self, if_true,
    Except.map, ZState.z, Option.map, List.map, Mat2.map] at hcontra
  have h1 : (1 : ℂ) / (ZState.scale_factor
      ⟨"ohm", some [Mat2.mk 1 1 1 1], none, none, none⟩ : ℂ) = 1 := by
    have := congrArg (fun o => Option.map (fun l => List.map Mat2.xx l) o)
      (Except.ok.inj hcontra)
    simpa [Mat2.map] using this
  rw [scale_factor_ohm rfl] at h1
  rw [div_eq_one_iff_eq (Complex.ofReal_ne_zero.mpr
    (ne_of_gt MT_TO_OHM_FACTOR_pos))] at h1
  have : (MT_TO_OHM_FACTOR : ℝ) = 1 := by
    exact_mod_cast h1.symm
  exact absurd this (ne_of_gt one_lt_MT_TO_OHM_FACTOR)

/-- C1 (amended): the `z` property setter stores the assigned array
verbatim in canonical storage (its docstring requires input in mt units
regardless of the declared unit), and the getter divides by the unit's
scale factor; the write/read round trip therefore returns the assigned
array divided by the scale factor, which equals the assigned array
exactly when the unit is "mt" (scale factor 1). -/
theorem C1_unit_roundtrip_amended (u : String) (X : List (Mat2 ℂ)) (s : ZState)
    (hmk : Z_mk none none none none u = .ok s) :
    ∃ s2, s.set_z (some X) = .ok s2 ∧
      s2.tf = some X ∧
      s2.z = some (X.map (Mat2.map (fun c => c / (s.scale_factor : ℂ)))) ∧
      (u = "mt" → s2.z = some X) := by
  have hu : unitsOk u = true := by
    by_contra h
    simp [Z_mk, h] at hmk
  rw [Z_mk_empty hu] at hmk
  cases hmk
  refine ⟨⟨u, some X, none, none, none⟩, ?_, rfl, ?_, ?_⟩
  · simp [ZState.set_z, ZState.hasTF, ZState.hasFrequency, validate_array_input,
      ZState.isEmpty, ZState.hasTFError, ZState.hasTFModelError]
  · simp [ZState.z, ZState.scale_factor]
  · intro hmt
    subst hmt
    have hsc : (ZState.scale_factor ⟨"mt", some X, none, none, none⟩ : ℝ) = 1 :=
      scale_factor_mt rfl
    have hfun : (Mat2.map (fun c : ℂ => c)) = id := funext Mat2.map_id
    simp only [ZState.z, hsc, Complex.ofReal_one, div_one, Option.map_some', hfun,
      List.map_id]

/-- Witness for the amended C1 at a concrete input: units "mt" and a
one-frequency tensor. -/
theorem C1_unit_roundtrip_witness :
    Z_mk none none none none ("mt") = .ok ⟨"mt", none, none, none, none⟩ ∧
    (∃ s2, ZState.set_z ⟨"mt", none, none, none, none⟩
        (some [Mat2.mk (2 : ℂ) 3 5 7]) = .ok s2 ∧
      s2.tf = some [Mat2.mk (2 : ℂ) 3 5 7] ∧
      s2.z = some ([Mat2.mk (2 : ℂ) 3 5 7].map (Mat2.map (fun c =>
        c / (ZState.scale_factor ⟨"mt", none, none, none, none⟩ : ℂ)))) ∧
      ("mt" = "mt" → s2.z = some [Mat2.mk (2 : ℂ) 3 5 7])) :=
  ⟨Z_mk_empty unitsOk_mt,
    C1_unit_roundtrip_amended ("mt") [Mat2.mk 2 3 5 7] _ (Z_mk_empty unitsOk_mt)⟩

/-- Every element of a `zipWith` is the image of some pair of elements. -/
lemma exists_of_mem_zipWith {α β γ : Type} (f : α → β → γ) :
    ∀ (l₁ : List α) (l₂ : List β) (x : γ), x ∈ List.zipWith f l₁ l₂ → ∃ a b, x = f a b := by
  intro l₁
  induction l₁ with
  | nil => intro l₂ x hx; simp [List.zipWith] at hx
  | cons a t ih =>
    intro l₂ x hx
    cases l₂ with
    | nil => simp [List.zipWith] at hx
    | cons b t2 =>
      simp only [List.zipWith, List.mem_cons] at hx
      rcases hx with rfl | hx
      · exact ⟨a, b, rfl⟩
      · exact ih t2 x hx

/-- C8: `estimate_dimensionality` (on the eccentricity and skew sequences
supplied by the phase-tensor collaborator) returns one value per entry,
each in {1,2,3}; the two sequential assignments of the source collapse
to: 3 where `|skew|` exceeds its threshold (the later assignment wins),
else 2 where the eccentricity exceeds its threshold, else 1; and on skew
[0,0,10], eccentricity [0,0.2,0] with thresholds (5, 0.1) it returns
[1,2,3]. -/
theorem C8_estimate_dimensionality :
    (∀ (skew ecc : List ℝ) (ts te : ℝ), skew.length = ecc.length →
      (estimate_dimensionality skew ecc ts te).length = skew.length ∧
      estimate_dimensionality skew ecc ts te =
        List.zipWith (fun sk e => if |sk| > ts then 3 else if e > te then 2 else 1)
          skew ecc ∧
      ∀ d ∈ estimate_dimensionality skew ecc ts te, d = 1 ∨ d = 2 ∨ d = 3) ∧
    estimate_dimensionality [0, 0, 10] [0, 0.2, 0] 5 0.1 = [1, 2, 3] := by
  constructor
  · intro skew ecc ts te hlen
    refine ⟨?_, ?_, ?_⟩
    · simp [estimate_dimensionality, hlen]
    · simp [estimate_dimensionality, List.zipWith_map_right]
    · intro d hd
      simp only [estimate_dimensionality, List.zipWith_map_right] at hd
      obtain ⟨sk, e, rfl⟩ := exists_of_mem_zipWith _ skew ecc d hd
      split_ifs <;> simp
  · have h1 : ¬ ((0 : ℝ) > 0.1) := by norm_num
    have h2 : ((0.2 : ℝ) > 0.1) := by norm_num
    have h3 : ¬ (|(0 : ℝ)| > 5) := by simp
    have h4 : (|(10 : ℝ)| > 5) := by rw [abs_of_nonneg (by norm_num)]; norm_num
    simp [estimate_dimensionality, h1, h2, h3, h4]
    norm_num

/-- Witness for C8 at a concrete input. -/
theorem C8_estimate_dimensionality_witness :
    ([0, 0, 10] : List ℝ).length = ([0, 0.2, 0] : List ℝ).length ∧
    ((estimate_dimensionality [0, 0, 10] [0, 0.2, 0] 5 0.1).length =
        ([0, 0, 10] : List ℝ).length ∧
      estimate_dimensionality [0, 0, 10] [0, 0.2, 0] 5 0.1 =
        List.zipWith (fun (sk e : ℝ) => if |sk| > 5 then 3 else if e > 0.1 then 2 else 1)
          ([0, 0, 10] : List ℝ) ([0, 0.2, 0] : List ℝ) ∧
      ∀ d ∈ estimate_dimensionality [0, 0, 10] [0, 0.2, 0] 5 0.1,
        d = 1 ∨ d = 2 ∨ d = 3) :=
  ⟨rfl, C8_estimate_dimensionality.1 [0, 0, 10] [0, 0.2, 0] 5 0.1 rfl⟩

/-- The determinant-error formula as the claim words it: the
finite-difference value `sqrt(|det(z + e) - det(z - e)| / 2)` on the
display-unit arrays, additionally divided by the unit scale factor.
Stated from the spec's words only, for comparison with the source's
`det_error`. -/
noncomputable def spec_det_error (s : ZState) : Option (List ℝ) :=
  match s.z, s.z_error with
  | some zl, some el =>
    some (List.zipWith
      (fun zm em =>
        Real.sqrt
          (Complex.abs
            (det2 (Mat2.zipWith (fun a b => a + b) zm (em.map Complex.ofReal)) -
             det2 (Mat2.zipWith (fun a b => a - b) zm (em.map Complex.ofReal))) / 2) /
        s.scale_factor)
      zl el)
  | _, _ => none

/-- The concrete state refuting C2: units "ohm", canonical tensor
`diag(F, F)` and canonical error `[[F,0],[0,0]]`, so the display arrays
are the identity matrix and `[[1,0],[0,0]]`. -/
noncomputable def C2state : ZState :=
  ⟨"ohm",
    some [Mat2.mk (MT_TO_OHM_FACTOR : ℂ) 0 0 (MT_TO_OHM_FACTOR : ℂ)],
    some [Mat2.mk MT_TO_OHM_FACTOR 0 0 0],
    none, none⟩

lemma C2state_z :
    C2state.z = some [Mat2.mk (1 : ℂ) 0 0 1] := by
  have hF : (MT_TO_OHM_FACTOR : ℂ) ≠ 0 :=
    Complex.ofReal_ne_zero.mpr (ne_of_gt MT_TO_OHM_FACTOR_pos)
  have hsc : C2state.scale_factor = MT_TO_OHM_FACTOR := scale_factor_ohm rfl
  rw [ZState.z, hsc]
  simp [C2state, Mat2.map, div_self hF]

lemma C2state_z_error :
    C2state.z_error = some [Mat2.mk (1 : ℝ) 0 0 0] := by
  have hF : MT_TO_OHM_FACTOR ≠ 0 := ne_of_gt MT_TO_OHM_FACTOR_pos
  have hsc : C2state.scale_factor = MT_TO_OHM_FACTOR := scale_factor_ohm rfl
  rw [ZState.z_error, hsc]
  simp [C2state, Mat2.map, div_self hF]

/-- C2 (counterexample): at a concrete "ohm"-unit state, `det_error` does
not equal the claim's formula (finite-difference value divided by the
scale factor); the source multiplies the square root by the scale factor
instead (`**` binds tighter than `*`), giving F·sqrt(1) = F where the
claim's formula gives sqrt(1)/F = 1/F. -/
theorem C2_det_error_counterexample :
    C2state.det_error ≠ spec_det_error C2state := by
  have hsc : C2state.scale_factor = MT_TO_OHM_FACTOR := scale_factor_ohm rfl
  have habs : Complex.abs (1 + 1) = 2 := by
    rw [show (1 + 1 : ℂ) = 2 by norm_num]
    exact Complex.abs_two
  have hdet : C2state.det_error = some [MT_TO_OHM_FACTOR] := by
    rw [ZState.det_error, C2state_z, C2state_z_error, hsc]
    simp only [List.zipWith, det2, Mat2.zipWith, Mat2.map]
    norm_num [habs, Real.sqrt_one]
  have hspec : spec_det_error C2state = some [1 / MT_TO_OHM_FACTOR] := by
    rw [spec_det_error, C2state_z, C2state_z_error, hsc]
    simp only [List.zipWith, det2, Mat2.zipWith, Mat2.map]
    norm_num [habs, Real.sqrt_one]
  rw [hdet, hspec]
  intro hcontra
  have heq : MT_TO_OHM_FACTOR = 1 / MT_TO_OHM_FACTOR := by
    have := Option.some.inj hcontra
    exact List.head_eq_of_cons_eq this
  have h2 : 1 / MT_TO_OHM_FACTOR < 1 := by
    rw [div_lt_one MT_TO_OHM_FACTOR_pos]
    exact one_lt_MT_TO_OHM_FACTOR
  rw [← heq] at h2
  linarith [one_lt_MT_TO_OHM_FACTOR]

/-- C2 (amended): `det_error` multiplies the square root of the
finite-difference operand by the unit scale factor (from outside the
root), while `det_model_error` applies the identical formula without the
factor; hence on a state whose error and model-error arrays coincide,
the determinant error is the determinant model error times the scale
factor. -/
theorem C2_det_error_scale_asymmetry_amended (s : ZState)
    (zl : List (Mat2 ℂ)) (el : List (Mat2 ℝ))
    (htf : s.tf = some zl) (herr : s.tf_error = some el)
    (hm : s.tf_model_error = s.tf_error) :
    s.det_error =
      Option.map (List.map (fun x => s.scale_factor * x))
        s.det_model_error := by
  have hz : s.z = some (zl.map (Mat2.map (fun c => c / (s.scale_factor : ℂ)))) := by
    simp [ZState.z, htf]
  have he : s.z_error = some (el.map (Mat2.map (fun c => c / s.scale_factor))) := by
    simp [ZState.z_error, herr]
  have hme : s.z_model_error = some (el.map (Mat2.map (fun c => c / s.scale_factor))) := by
    rw [ZState.z_model_error, hm, herr]
    simp
  rw [ZState.det_error, ZState.det_model_error, hz, he, hme]
  simp only [Option.map_some', List.map_zipWith]

/-- Witness for the amended C2 at a concrete state whose error and
model-error arrays coincide. -/
theorem C2_det_error_scale_asymmetry_witness :
    (⟨"mt", some [Mat2.mk (1 : ℂ) 0 0 1], some [Mat2.mk (1 : ℝ) 0 0 0],
        some [Mat2.mk (1 : ℝ) 0 0 0], none⟩ : ZState).tf =
      some [Mat2.mk (1 : ℂ) 0 0 1] ∧
    (⟨"mt", some [Mat2.mk (1 : ℂ) 0 0 1], some [Mat2.mk (1 : ℝ) 0 0 0],
        some [Mat2.mk (1 : ℝ) 0 0 0], none⟩ : ZState).tf_error =
      some [Mat2.mk (1 : ℝ) 0 0 0] ∧
    (⟨"mt", some [Mat2.mk (1 : ℂ) 0 0 1], some [Mat2.mk (1 : ℝ) 0 0 0],
        some [Mat2.mk (1 : ℝ) 0 0 0], none⟩ : ZState).tf_model_error =
      (⟨"mt", some [Mat2.mk (1 : ℂ) 0 0 1], some [Mat2.mk (1 : ℝ) 0 0 0],
        some [Mat2.mk (1 : ℝ) 0 0 0], none⟩ : ZState).tf_error ∧
    ZState.det_error ⟨"mt", some [Mat2.mk (1 : ℂ) 0 0 1], some [Mat2.mk (1 : ℝ) 0 0 0],
        some [Mat2.mk (1 : ℝ) 0 0 0], none⟩ =
      Option.map (List.map (fun x => ZState.scale_factor
          ⟨"mt", some [Mat2.mk (1 : ℂ) 0 0 1], some [Mat2.mk (1 : ℝ) 0 0 0],
            some [Mat2.mk (1 : ℝ) 0 0 0], none⟩ * x))
        (ZState.det_model_error ⟨"mt", some [Mat2.mk (1 : ℂ) 0 0 1],
          some [Mat2.mk (1 : ℝ) 0 0 0], some [Mat2.mk (1 : ℝ) 0 0 0], none⟩) :=
  ⟨rfl, rfl, rfl,
    C2_det_error_scale_asymmetry_amended _ [Mat2.mk 1 0 0 1] [Mat2.mk 1 0 0 0]
      rfl rfl rfl⟩

/-- Zipping with a constant list applies the function with that constant. -/
lemma zipWith_replicate_right {α β γ : Type} (f : α → β → γ) (l : List α) (c : β) :
    List.zipWith f l (List.replicate l.length c) = l.map (fun x => f x c) := by
  induction l with
  | nil => rfl
  | cons a t ih => simp [List.replicate_succ, List.zipWith, ih]

/-- Zipping two constant lists of equal length. -/
lemma zip_replicate_replicate {α β : Type} (n : ℕ) (a : α) (b : β) :
    (List.replicate n a).zip (List.replicate n b) = List.replicate n (a, b) := by
  induction n with
  | zero => rfl
  | succ k ih => simp [List.replicate_succ, List.zip_cons_cons, ih]

/-- Scaling back after scaling down is the identity on error arrays. -/
lemma map_div_map_mul (l : List (Mat2 ℝ)) {c : ℝ} (hc : c ≠ 0) :
    (l.map (Mat2.map (fun x => x / c))).map (Mat2.map (fun x => x * c)) = l := by
  rw [List.map_map]
  have hcomp : (Mat2.map (fun x : ℝ => x * c)) ∘ (Mat2.map (fun x : ℝ => x / c)) = id := by
    funext m
    cases m
    simp [Function.comp, Mat2.map, div_mul_cancel₀, hc]
  rw [hcomp, List.map_id]

/-- The present-length side condition used for container shape checks. -/
def lenOk {α : Type} (n : ℕ) : Option (List α) → Prop
  | none => True
  | some l => l.length = n

/-- Evaluation of the constructor when the supplied arrays have consistent
lengths. -/
lemma Z_mk_ok (z : List (Mat2 ℂ)) (ze : Option (List (Mat2 ℝ)))
    (freq : Option (List ℝ)) (zme : Option (List (Mat2 ℝ))) (u : String)
    (hu : unitsOk u = true)
    (h1 : lenOk z.length ze) (h2 : lenOk z.length zme) (h3 : lenOk z.length freq) :
    Z_mk (some z) ze freq zme u =
      .ok ⟨u,
        some (z.map (Mat2.map (fun c => c * (((IMPEDANCE_UNITS u).getD 1 : ℝ) : ℂ)))),
        ze.map (fun l => l.map (Mat2.map (fun x => x * (IMPEDANCE_UNITS u).getD 1))),
        zme.map (fun l => l.map (Mat2.map (fun x => x * (IMPEDANCE_UNITS u).getD 1))),
        freq⟩ := by
  cases ze <;> cases zme <;> cases freq <;>
    simp only [lenOk] at h1 h2 h3 <;>
    simp [Z_mk, hu, lensConsistent, optLen, h1, h2, h3]

/-- A scalar static-shift factor always validates to the broadcast list. -/
lemma validate_ss_input_scalar (n : ℕ) (rfx : SSFactor) (c : ℝ) :
    validate_ss_input n rfx (.scalar c) = .ok (List.replicate n c) := by
  simp [validate_ss_input, validate_factor_single]

/-- Mapping preserves the present-length side condition. -/
lemma lenOk_map {α β : Type} (n : ℕ) (o : Option (List α)) (f : List α → List β)
    (hf : ∀ l, (f l).length = l.length) (h : lenOk n o) :
    lenOk n (o.map f) := by
  cases o with
  | none => trivial
  | some l => simpa [lenOk, hf] using h

/-- Full evaluation of `remove_ss` with two scalar factors on a state with
a populated tensor and consistent array lengths: the stored tensor's
xx/xy row is divided by the square root of the x factor and the yx/yy
row by the square root of the y factor; the stored error arrays, the
frequency axis and the unit are passed through unchanged. -/
lemma remove_ss_scalar (s : ZState) (zl : List (Mat2 ℂ)) (a b : ℝ)
    (hu : unitsOk s.units = true) (htf : s.tf = some zl)
    (herr : lenOk zl.length s.tf_error) (hmod : lenOk zl.length s.tf_model_error)
    (hfreq : lenOk zl.length s.frequency) :
    s.remove_ss (.scalar a) (.scalar b) =
      .ok ⟨s.units,
        some (zl.map (fun m => Mat2.mk
          (m.xx / ((Real.sqrt a : ℝ) : ℂ)) (m.xy / ((Real.sqrt a : ℝ) : ℂ))
          (m.yx / ((Real.sqrt b : ℝ) : ℂ)) (m.yy / ((Real.sqrt b : ℝ) : ℂ)))),
        s.tf_error, s.tf_model_error, s.frequency⟩ := by
  obtain ⟨u, tf, te, tme, fr⟩ := s
  simp only at htf hu herr hmod hfreq
  subst htf
  have hscne : (IMPEDANCE_UNITS u).getD 1 ≠ 0 :=
    scale_factor_ne_zero ⟨u, some zl, te, tme, fr⟩
  have hsc' : (((IMPEDANCE_UNITS u).getD 1 : ℝ) : ℂ) ≠ 0 :=
    Complex.ofReal_ne_zero.mpr hscne
  have hcancel : ∀ x : ℂ,
      x / (((IMPEDANCE_UNITS u).getD 1 : ℝ) : ℂ) * (((IMPEDANCE_UNITS u).getD 1 : ℝ) : ℂ) = x :=
    fun x => div_mul_cancel₀ x hsc'
  have hz : ZState.z ⟨u, some zl, te, tme, fr⟩ =
      some (zl.map (Mat2.map
        (fun c => c / (((IMPEDANCE_UNITS u).getD 1 : ℝ) : ℂ)))) := rfl
  have hze : ZState.z_error ⟨u, some zl, te, tme, fr⟩ =
      te.map (fun l => l.map (Mat2.map
        (fun x => x / (IMPEDANCE_UNITS u).getD 1))) := rfl
  have hzme : ZState.z_model_error ⟨u, some zl, te, tme, fr⟩ =
      tme.map (fun l => l.map (Mat2.map
        (fun x => x / (IMPEDANCE_UNITS u).getD 1))) := rfl
  have hopt : ∀ (o : Option (List (Mat2 ℝ))),
      Option.map (fun l => List.map (Mat2.map
          (fun x => x * (IMPEDANCE_UNITS u).getD 1)) l)
        (Option.map (fun l => List.map (Mat2.map
          (fun x => x / (IMPEDANCE_UNITS u).getD 1)) l) o) = o := by
    intro o
    cases o with
    | none => rfl
    | some l => simp [map_div_map_mul l hscne]
  rw [ZState.remove_ss, hz]
  simp only [validate_ss_input_scalar]
  rw [Z_mk_ok _ _ _ _ _ hu
    (by
      rw [hze]
      exact lenOk_map _ te _ (fun l => List.length_map l _)
        (by simpa [List.length_map] using herr))
    (by
      rw [hzme]
      exact lenOk_map _ tme _ (fun l => List.length_map l _)
        (by simpa [List.length_map] using hmod))
    (by simpa [List.length_map] using hfreq)]
  rw [hze, hzme, hopt te, hopt tme]
  simp only [List.map_replicate, zip_replicate_replicate, zipWith_replicate_right,
    List.map_map]
  congr 2
  refine congrArg some (List.map_congr_left ?_)
  intro m _
  cases m
  simp only [Function.comp, Mat2.map, ZState.scale_factor, hcancel]

/-- C5: static-shift inverse.  On a state with populated tensor and
consistent array lengths, `remove_ss` with positive scalar factors
`(a, b)` returns a new object whose stored xx/xy row is divided by
`sqrt(a)` and whose yx/yy row is divided by `sqrt(b)`, with the error
arrays, frequency and unit passed through equal to the originals; and
applying `remove_ss` with factors `(1/a, 1/b)` to that object restores
the original state exactly. -/
theorem C5_remove_ss_inverse (s : ZState) (zl : List (Mat2 ℂ)) (a b : ℝ)
    (hu : unitsOk s.units = true) (htf : s.tf = some zl)
    (ha : 0 < a) (hb : 0 < b)
    (herr : lenOk zl.length s.tf_error) (hmod : lenOk zl.length s.tf_model_error)
    (hfreq : lenOk zl.length s.frequency) :
    ∃ s1, s.remove_ss (.scalar a) (.scalar b) = .ok s1 ∧
      s1.tf = some (zl.map (fun m => Mat2.mk
        (m.xx / ((Real.sqrt a : ℝ) : ℂ)) (m.xy / ((Real.sqrt a : ℝ) : ℂ))
        (m.yx / ((Real.sqrt b : ℝ) : ℂ)) (m.yy / ((Real.sqrt b : ℝ) : ℂ)))) ∧
      s1.tf_error = s.tf_error ∧ s1.tf_model_error = s.tf_model_error ∧
      s1.frequency = s.frequency ∧ s1.units = s.units ∧
      s1.remove_ss (.scalar a⁻¹) (.scalar b⁻¹) = .ok s := by
  obtain ⟨u, tf, te, tme, fr⟩ := s
  subst htf
  have hsqa : ((Real.sqrt a : ℝ) : ℂ) ≠ 0 :=
    Complex.ofReal_ne_zero.mpr (ne_of_gt (Real.sqrt_pos.mpr ha))
  have hsqb : ((Real.sqrt b : ℝ) : ℂ) ≠ 0 :=
    Complex.ofReal_ne_zero.mpr (ne_of_gt (Real.sqrt_pos.mpr hb))
  have hca : ∀ x : ℂ, x / ((Real.sqrt a : ℝ) : ℂ) * ((Real.sqrt a : ℝ) : ℂ) = x :=
    fun x => div_mul_cancel₀ x hsqa
  have hcb : ∀ x : ℂ, x / ((Real.sqrt b : ℝ) : ℂ) * ((Real.sqrt b : ℝ) : ℂ) = x :=
    fun x => div_mul_cancel₀ x hsqb
  have h1 := remove_ss_scalar ⟨u, some zl, te, tme, fr⟩ zl a b hu rfl herr hmod hfreq
  refine ⟨_, h1, rfl, rfl, rfl, rfl, rfl, ?_⟩
  have h2 := remove_ss_scalar
    ⟨u, some (zl.map (fun m => Mat2.mk
        (m.xx / ((Real.sqrt a : ℝ) : ℂ)) (m.xy / ((Real.sqrt a : ℝ) : ℂ))
        (m.yx / ((Real.sqrt b : ℝ) : ℂ)) (m.yy / ((Real.sqrt b : ℝ) : ℂ)))),
      te, tme, fr⟩
    (zl.map (fun m => Mat2.mk
        (m.xx / ((Real.sqrt a : ℝ) : ℂ)) (m.xy / ((Real.sqrt a : ℝ) : ℂ))
        (m.yx / ((Real.sqrt b : ℝ) : ℂ)) (m.yy / ((Real.sqrt b : ℝ) : ℂ))))
    a⁻¹ b⁻¹ hu rfl (by simpa using herr) (by simpa using hmod) (by simpa using hfreq)
  rw [h2]
  have hml : (zl.map (fun m => Mat2.mk
        (m.xx / ((Real.sqrt a : ℝ) : ℂ)) (m.xy / ((Real.sqrt a : ℝ) : ℂ))
        (m.yx / ((Real.sqrt b : ℝ) : ℂ)) (m.yy / ((Real.sqrt b : ℝ) : ℂ)))).map
      (fun m => Mat2.mk
        (m.xx / ((Real.sqrt a⁻¹ : ℝ) : ℂ)) (m.xy / ((Real.sqrt a⁻¹ : ℝ) : ℂ))
        (m.yx / ((Real.sqrt b⁻¹ : ℝ) : ℂ)) (m.yy / ((Real.sqrt b⁻¹ : ℝ) : ℂ))) = zl := by
    rw [List.map_map]
    have hpt : ∀ m ∈ zl, ((fun m : Mat2 ℂ => Mat2.mk
        (m.xx / ((Real.sqrt a⁻¹ : ℝ) : ℂ)) (m.xy / ((Real.sqrt a⁻¹ : ℝ) : ℂ))
        (m.yx / ((Real.sqrt b⁻¹ : ℝ) : ℂ)) (m.yy / ((Real.sqrt b⁻¹ : ℝ) : ℂ))) ∘
        (fun m : Mat2 ℂ => Mat2.mk
        (m.xx / ((Real.sqrt a : ℝ) : ℂ)) (m.xy / ((Real.sqrt a : ℝ) : ℂ))
        (m.yx / ((Real.sqrt b : ℝ) : ℂ)) (m.yy / ((Real.sqrt b : ℝ) : ℂ)))) m = id m := by
      intro m _
      cases m
      simp only [Function.comp, Real.sqrt_inv, Complex.ofReal_inv, div_inv_eq_mul, id,
        hca, hcb]
    rw [List.map_congr_left hpt, List.map_id]
  rw [hml]

/-- Witness for C5 at a concrete input: a one-frequency tensor with unit
"mt" and factors 4 and 9. -/
theorem C5_remove_ss_inverse_witness :
    unitsOk (ZState.units ⟨"mt", some [Mat2.mk (1 : ℂ) 2 3 4], none, none, none⟩) = true ∧
    (⟨"mt", some [Mat2.mk (1 : ℂ) 2 3 4], none, none, none⟩ : ZState).tf =
      some [Mat2.mk (1 : ℂ) 2 3 4] ∧
    (0 : ℝ) < 4 ∧ (0 : ℝ) < 9 ∧
    (∃ s1, ZState.remove_ss ⟨"mt", some [Mat2.mk (1 : ℂ) 2 3 4], none, none, none⟩
        (.scalar 4) (.scalar 9) = .ok s1 ∧
      s1.tf = some ([Mat2.mk (1 : ℂ) 2 3 4].map (fun m => Mat2.mk
        (m.xx / ((Real.sqrt 4 : ℝ) : ℂ)) (m.xy / ((Real.sqrt 4 : ℝ) : ℂ))
        (m.yx / ((Real.sqrt 9 : ℝ) : ℂ)) (m.yy / ((Real.sqrt 9 : ℝ) : ℂ)))) ∧
      s1.tf_error = (⟨"mt", some [Mat2.mk (1 : ℂ) 2 3 4], none, none, none⟩ : ZState).tf_error ∧
      s1.tf_model_error =
        (⟨"mt", some [Mat2.mk (1 : ℂ) 2 3 4], none, none, none⟩ : ZState).tf_model_error ∧
      s1.frequency = (⟨"mt", some [Mat2.mk (1 : ℂ) 2 3 4], none, none, none⟩ : ZState).frequency ∧
      s1.units = (⟨"mt", some [Mat2.mk (1 : ℂ) 2 3 4], none, none, none⟩ : ZState).units ∧
      s1.remove_ss (.scalar (4 : ℝ)⁻¹) (.scalar (9 : ℝ)⁻¹) =
        .ok ⟨"mt", some [Mat2.mk (1 : ℂ) 2 3 4], none, none, none⟩) :=
  ⟨unitsOk_mt, rfl, by norm_num, by norm_num,
    C5_remove_ss_inverse ⟨"mt", some [Mat2.mk 1 2 3 4], none, none, none⟩
      [Mat2.mk 1 2 3 4] 4 9 unitsOk_mt rfl (by norm_num) (by norm_num)
      trivial trivial trivial⟩

lemma IMPEDANCE_UNITS_mt : IMPEDANCE_UNITS ("mt") = some 1 := by
  simp [IMPEDANCE_UNITS]

/-- Scaling a real optional array by the "mt" factor (1) is the identity. -/
lemma opt_map_scale_one (o : Option (List (Mat2 ℝ))) :
    o.map (fun l => l.map (Mat2.map (fun x => x * ((IMPEDANCE_UNITS ("mt")).getD 1 : ℝ)))) =
      o := by
  cases o with
  | none => rfl
  | some l =>
    simp only [Option.map_some', Option.some.injEq]
    have hfun : (Mat2.map (fun x : ℝ => x * ((IMPEDANCE_UNITS ("mt")).getD 1 : ℝ))) = id := by
      funext m
      cases m
      simp [Mat2.map, IMPEDANCE_UNITS_mt]
    rw [hfun, List.map_id]

/-- Dividing a real optional array by 1 is the identity. -/
lemma opt_map_div_one (o : Option (List (Mat2 ℝ))) :
    Option.map (fun l => List.map (Mat2.map (fun x : ℝ => x / 1)) l) o = o := by
  cases o with
  | none => rfl
  | some l =>
    simp only [Option.map_some', Option.some.injEq]
    have hfun : (Mat2.map (fun x : ℝ => x / 1)) = id := by
      funext m
      cases m
      simp [Mat2.map]
    rw [hfun, List.map_id]

/-- C7 (amended): `remove_distortion` with `inplace=False` returns a new
object with the same frequency and unit as the original (and leaves the
original untouched), but the model-error array is NOT carried over
unchanged: the constructor call omits `units` (so it runs with the
default "mt" and scales by 1 the display-unit model error it was given)
and the unit is only reassigned afterwards, so the returned object's
`z_model_error` is the original's `z_model_error` divided by the unit
scale factor — they coincide exactly when the unit is "mt". -/
theorem C7_remove_distortion_model_error_amended (s : ZState)
    (dz : List (Mat2 ℂ)) (de : List (Mat2 ℝ))
    (hu : unitsOk s.units = true)
    (hlen_e : de.length = dz.length)
    (hmod : lenOk dz.length s.tf_model_error)
    (hfreq : lenOk dz.length s.frequency) :
    ∃ obj, s.remove_distortion_new dz de = .ok obj ∧
      obj.z_model_error =
        Option.map (fun l => List.map (Mat2.map (fun x => x / s.scale_factor)) l)
          s.z_model_error ∧
      obj.frequency = s.frequency ∧
      obj.units = s.units ∧
      (s.units = "mt" → obj.z_model_error = s.z_model_error) := by
  have hzme : s.z_model_error =
      s.tf_model_error.map (fun l => l.map (Mat2.map
        (fun x => x / s.scale_factor))) := rfl
  have hzme_len : lenOk dz.length s.z_model_error := by
    rw [hzme]
    exact lenOk_map _ _ _ (fun l => List.length_map l _) hmod
  unfold ZState.remove_distortion_new
  rw [Z_mk_ok _ _ _ _ _ unitsOk_mt
    (by simp [lenOk, hlen_e])
    (by simpa using hzme_len)
    (by simpa using hfreq)]
  simp only [ZState.set_units, hu, if_true, opt_map_scale_one]
  refine ⟨_, rfl, ?_, rfl, rfl, ?_⟩
  · rfl
  · intro hmt
    have hsc : s.scale_factor = 1 := scale_factor_mt hmt
    show Option.map (fun l => List.map (Mat2.map
        (fun x => x / s.scale_factor)) l) s.z_model_error = s.z_model_error
    rw [hsc]
    exact opt_map_div_one s.z_model_error

/-- The concrete state refuting C7's model-error clause: units "ohm" with
a populated model-error array (canonical `[[F,0],[0,0]]`, display
`[[1,0],[0,0]]`). -/
noncomputable def C7state : ZState :=
  ⟨"ohm", some [Mat2.mk 1 1 1 1], none,
    some [Mat2.mk MT_TO_OHM_FACTOR 0 0 0], some [1]⟩

lemma C7state_z_model_error :
    C7state.z_model_error = some [Mat2.mk (1 : ℝ) 0 0 0] := by
  have hF : MT_TO_OHM_FACTOR ≠ 0 := ne_of_gt MT_TO_OHM_FACTOR_pos
  have hsc : C7state.scale_factor = MT_TO_OHM_FACTOR := scale_factor_ohm rfl
  rw [ZState.z_model_error, hsc]
  simp [C7state, Mat2.map, div_self hF]

/-- C7 (counterexample): at a concrete "ohm"-unit state, the object
returned by the non-inplace `remove_distortion` does not carry the
model-error array over unchanged — its `z_model_error` is the original
divided by the conversion factor. -/
theorem C7_remove_distortion_counterexample :
    Except.map ZState.z_model_error
      (C7state.remove_distortion_new [Mat2.mk 0 0 0 0] [Mat2.mk 0 0 0 0]) ≠
      .ok C7state.z_model_error := by
  have hF : MT_TO_OHM_FACTOR ≠ 0 := ne_of_gt MT_TO_OHM_FACTOR_pos
  have hzl : lenOk ([Mat2.mk (0 : ℂ) 0 0 0].map
      (Mat2.map (fun c => c * (C7state.scale_factor : ℂ)))).length
      C7state.z_model_error := by
    rw [C7state_z_model_error]
    simp [lenOk]
  unfold ZState.remove_distortion_new
  rw [Z_mk_ok _ _ _ _ _ unitsOk_mt (by simp [lenOk]) (by simpa using hzl)
    (by simp [C7state, lenOk])]
  simp only [ZState.set_units, unitsOk_ohm]
  rw [C7state_z_model_error]
  simp only [show C7state.units = "ohm" from rfl, if_true, Except.map,
    opt_map_scale_one]
  intro hcontra
  have hxx : (1 : ℝ) / MT_TO_OHM_FACTOR = 1 := by
    have h0 := Except.ok.inj hcontra
    have h1 := congrArg (fun o => Option.map (fun l => List.map Mat2.xx l) o) h0
    simp only [ZState.z_model_error, Option.map_some', List.map_cons,
      List.map_nil, Option.some.injEq, List.cons.injEq, Mat2.map] at h1
    have h2 := h1.1
    rw [show ZState.scale_factor
        ⟨"ohm", _, _, some [Mat2.mk (1 : ℝ) 0 0 0], _⟩ = MT_TO_OHM_FACTOR from
      scale_factor_ohm rfl] at h2
    exact h2
  rw [div_eq_one_iff_eq hF] at hxx
  exact absurd hxx.symm (ne_of_gt one_lt_MT_TO_OHM_FACTOR)

/-- Witness for the amended C7 at a concrete input. -/
theorem C7_remove_distortion_model_error_witness :
    unitsOk (ZState.units ⟨"mt", some [Mat2.mk 1 1 1 1], none,
        some [Mat2.mk (1 : ℝ) 0 0 0], some [1]⟩) = true ∧
    ([Mat2.mk (0 : ℝ) 0 0 0].length = [Mat2.mk (0 : ℂ) 0 0 0].length) ∧
    (∃ obj, ZState.remove_distortion_new
        ⟨"mt", some [Mat2.mk 1 1 1 1], none, some [Mat2.mk (1 : ℝ) 0 0 0], some [1]⟩
        [Mat2.mk 0 0 0 0] [Mat2.mk 0 0 0 0] = .ok obj ∧
      obj.z_model_error =
        Option.map (fun l => List.map (Mat2.map (fun x => x /
            ZState.scale_factor ⟨"mt", some [Mat2.mk 1 1 1 1], none,
              some [Mat2.mk (1 : ℝ) 0 0 0], some [1]⟩)) l)
          (ZState.z_model_error ⟨"mt", some [Mat2.mk 1 1 1 1], none,
            some [Mat2.mk (1 : ℝ) 0 0 0], some [1]⟩) ∧
      obj.frequency = some [1] ∧
      obj.units = "mt" ∧
      ("mt" = "mt" → obj.z_model_error =
        ZState.z_model_error ⟨"mt", some [Mat2.mk 1 1 1 1], none,
          some [Mat2.mk (1 : ℝ) 0 0 0], some [1]⟩)) :=
  ⟨unitsOk_mt, rfl,
    C7_remove_distortion_model_error_amended _ [Mat2.mk 0 0 0 0] [Mat2.mk 0 0 0 0]
      unitsOk_mt rfl (by simp [lenOk]) (by simp [lenOk])⟩

/-- Scaling a complex matrix list by the "mt" factor (1) is the identity. -/
lemma list_map_scale_one_complex (l : List (Mat2 ℂ)) :
    l.map (Mat2.map (fun c => c * (((IMPEDANCE_UNITS ("mt")).getD 1 : ℝ) : ℂ))) = l := by
  have hfun : (Mat2.map (fun c : ℂ =>
      c * (((IMPEDANCE_UNITS ("mt")).getD 1 : ℝ) : ℂ))) = id := by
    funext m
    cases m
    simp [Mat2.map, IMPEDANCE_UNITS_mt]
  rw [hfun, List.map_id]

/-- The "xx" component extraction slices index (0,0). -/
lemma get_component_xx (l : List (Mat2 ℝ)) :
    get_component compXX (some l) = some (l.map (fun m => m.get 0 0)) := rfl

lemma Mat2.get_00 {α : Type} (m : Mat2 α) : m.get 0 0 = m.xx := rfl

/-- The argument of `1 + i` is π/4. -/
lemma arg_one_add_I : Complex.arg (1 + Complex.I) = Real.pi / 4 := by
  have hs2 : (0 : ℝ) < Real.sqrt 2 := Real.sqrt_pos.mpr (by norm_num)
  have h2 : (Real.sqrt 2) * (Real.sqrt 2 / 2) = 1 := by
    rw [mul_div_assoc']
    rw [Real.mul_self_sqrt (by norm_num : (0 : ℝ) ≤ 2)]
    norm_num
  have key : ((Real.sqrt 2 : ℝ) : ℂ) *
      (Complex.cos (Complex.ofReal (Real.pi / 4)) +
       Complex.sin (Complex.ofReal (Real.pi / 4)) * Complex.I) =
      1 + Complex.I := by
    rw [← Complex.ofReal_cos, ← Complex.ofReal_sin,
      Real.cos_pi_div_four, Real.sin_pi_div_four]
    apply Complex.ext <;>
      simp [Complex.mul_re, Complex.mul_im, Complex.add_re, Complex.add_im, h2]
  rw [← key, Complex.arg_real_mul _ hs2]
  refine Complex.arg_cos_add_sin_mul_I ⟨?_, ?_⟩
  · nlinarith [Real.pi_pos]
  · nlinarith [Real.pi_pos]

/-- Conversion of π/4 to degrees. -/
lemma rad2deg_pi_div_four : rad2deg (Real.pi / 4) = 45 := by
  unfold rad2deg
  field_simp
  ring

/-- The resistivity and phase properties evaluate to the standard formulas
on the canonical stored tensor: the getter's division by the scale
factor and the property's multiplication by it cancel exactly. -/
lemma resistivity_phase_canonical (s : ZState) (zl : List (Mat2 ℂ)) (fl : List ℝ)
    (htf : s.tf = some zl) (hfr : s.frequency = some fl) :
    s.resistivity = some (List.zipWith
      (fun zm f => zm.map (fun c => Complex.abs c ^ 2 / f * 0.2)) zl fl) ∧
    s.phase = some (zl.map (fun zm =>
      zm.map (fun c => rad2deg (Complex.arg c)))) := by
  have hcancel : ∀ c : ℂ, c / (s.scale_factor : ℂ) * (s.scale_factor : ℂ) = c :=
    fun c => div_mul_cancel₀ c (scale_factor_complex_ne_zero s)
  have hz : s.z = some (zl.map (Mat2.map
      (fun c => c / (s.scale_factor : ℂ)))) := by
    simp [ZState.z, htf]
  constructor
  · simp only [ZState.resistivity, hz, hfr]
    simp only [List.zipWith_map_left]
    refine congrArg some ?_
    congr 1
    funext zm f
    cases zm
    simp only [Mat2.map, hcancel]
  · simp only [ZState.phase, hz, Option.map_some', List.map_map]
    refine congrArg some ?_
    refine List.map_congr_left ?_
    intro m _
    cases m
    simp only [Function.comp, Mat2.map, hcancel]

/-- C4: the resistivity and phase formulas operate on the canonical stored
tensor (the getter's division by the scale factor and the property's
multiplication cancel exactly); in particular, constructing with
`z = [[1+i, 0.1+0.1i], [0.1+0.1i, 1+i]]`, `frequency = [1]` and field
units ("mt") gives `res_xx = [0.4]` and `phase_xx = [45]`. -/
theorem C4_resistivity_phase_formulas :
    (∀ (s : ZState) (zl : List (Mat2 ℂ)) (fl : List ℝ),
      s.tf = some zl → s.frequency = some fl →
      s.resistivity = some (List.zipWith
        (fun zm f => zm.map (fun c => Complex.abs c ^ 2 / f * 0.2)) zl fl) ∧
      s.phase = some (zl.map (fun zm =>
        zm.map (fun c => rad2deg (Complex.arg c))))) ∧
    Except.map ZState.res_xx
      (Z_mk (some [Mat2.mk (1 + Complex.I) (0.1 + 0.1 * Complex.I)
        (0.1 + 0.1 * Complex.I) (1 + Complex.I)]) none (some [1]) none ("mt")) =
      .ok (some [(0.4 : ℝ)]) ∧
    Except.map ZState.phase_xx
      (Z_mk (some [Mat2.mk (1 + Complex.I) (0.1 + 0.1 * Complex.I)
        (0.1 + 0.1 * Complex.I) (1 + Complex.I)]) none (some [1]) none ("mt")) =
      .ok (some [(45 : ℝ)]) := by
  have hgen : ∀ (s : ZState) (zl : List (Mat2 ℂ)) (fl : List ℝ),
      s.tf = some zl → s.frequency = some fl →
      s.resistivity = some (List.zipWith
        (fun zm f => zm.map (fun c => Complex.abs c ^ 2 / f * 0.2)) zl fl) ∧
      s.phase = some (zl.map (fun zm =>
        zm.map (fun c => rad2deg (Complex.arg c)))) :=
    fun s zl fl htf hfr => resistivity_phase_canonical s zl fl htf hfr
  refine ⟨hgen, ?_, ?_⟩
  · rw [Z_mk_ok [Mat2.mk (1 + Complex.I) (0.1 + 0.1 * Complex.I)
        (0.1 + 0.1 * Complex.I) (1 + Complex.I)] none (some [1]) none ("mt")
        unitsOk_mt trivial trivial (by simp [lenOk]),
      list_map_scale_one_complex]
    simp only [Option.map_none']
    obtain ⟨hres, -⟩ := hgen
      ⟨"mt", some [Mat2.mk (1 + Complex.I) (0.1 + 0.1 * Complex.I)
        (0.1 + 0.1 * Complex.I) (1 + Complex.I)], none, none, some [1]⟩
      [Mat2.mk (1 + Complex.I) (0.1 + 0.1 * Complex.I)
        (0.1 + 0.1 * Complex.I) (1 + Complex.I)] [1] rfl rfl
    simp only [Except.map, ZState.res_xx, hres, get_component_xx, Mat2.get_00]
    simp only [List.zipWith, List.map, Mat2.map]
    have habs : Complex.abs (1 + Complex.I) ^ 2 = 2 := by
      rw [Complex.sq_abs, Complex.normSq_apply]
      simp
      norm_num
    rw [habs]
    norm_num
  · rw [Z_mk_ok [Mat2.mk (1 + Complex.I) (0.1 + 0.1 * Complex.I)
        (0.1 + 0.1 * Complex.I) (1 + Complex.I)] none (some [1]) none ("mt")
        unitsOk_mt trivial trivial (by simp [lenOk]),
      list_map_scale_one_complex]
    simp only [Option.map_none']
    obtain ⟨-, hpha⟩ := hgen
      ⟨"mt", some [Mat2.mk (1 + Complex.I) (0.1 + 0.1 * Complex.I)
        (0.1 + 0.1 * Complex.I) (1 + Complex.I)], none, none, some [1]⟩
      [Mat2.mk (1 + Complex.I) (0.1 + 0.1 * Complex.I)
        (0.1 + 0.1 * Complex.I) (1 + Complex.I)] [1] rfl rfl
    simp only [Except.map, ZState.phase_xx, hpha, get_component_xx, Mat2.get_00]
    simp only [List.map, Mat2.map]
    rw [arg_one_add_I, rad2deg_pi_div_four]

/-- Witness for C4's universally quantified clause at a concrete state. -/
theorem C4_resistivity_phase_formulas_witness :
    (⟨"mt", some [Mat2.mk (2 : ℂ) 0 0 0], none, none, some [1]⟩ : ZState).tf =
      some [Mat2.mk (2 : ℂ) 0 0 0] ∧
    (⟨"mt", some [Mat2.mk (2 : ℂ) 0 0 0], none, none, some [1]⟩ : ZState).frequency =
      some [1] ∧
    ((⟨"mt", some [Mat2.mk (2 : ℂ) 0 0 0], none, none, some [1]⟩ : ZState).resistivity =
      some (List.zipWith
        (fun zm f => zm.map (fun c => Complex.abs c ^ 2 / f * 0.2))
        [Mat2.mk (2 : ℂ) 0 0 0] [1]) ∧
    (⟨"mt", some [Mat2.mk (2 : ℂ) 0 0 0], none, none, some [1]⟩ : ZState).phase =
      some ([Mat2.mk (2 : ℂ) 0 0 0].map (fun zm =>
        zm.map (fun c => rad2deg (Complex.arg c))))) :=
  ⟨rfl, rfl, C4_resistivity_phase_formulas.1 _ [Mat2.mk 2 0 0 0] [1] rfl rfl⟩

/-- One reconstructed tensor entry has squared modulus `5·f·r`, so the
resistivity formula returns the input resistivity. -/
lemma res_roundtrip_entry (f r p : ℝ) (hf : 0 < f) (hr : 0 ≤ r) :
    Complex.abs (Complex.ofReal (Real.sqrt (5.0 * f * r)) *
      Complex.exp (Complex.I * Complex.ofReal (radians p))) ^ 2 / f * 0.2 = r := by
  rw [map_mul Complex.abs]
  rw [mul_comm Complex.I]
  rw [Complex.abs_exp_ofReal_mul_I]
  rw [Complex.abs_ofReal, abs_of_nonneg (Real.sqrt_nonneg _), mul_one]
  rw [Real.sq_sqrt (by positivity)]
  field_simp
  ring

/-- One reconstructed tensor entry with positive modulus has argument
`radians p`, so the phase formula returns the input phase. -/
lemma phase_roundtrip_entry (f r p : ℝ) (hf : 0 < f) (hr : 0 < r)
    (hp1 : -180 < p) (hp2 : p ≤ 180) :
    rad2deg (Complex.arg (Complex.ofReal (Real.sqrt (5.0 * f * r)) *
      Complex.exp (Complex.I * Complex.ofReal (radians p)))) = p := by
  have ha : 0 < Real.sqrt (5.0 * f * r) := Real.sqrt_pos.mpr (by positivity)
  rw [Complex.arg_real_mul _ ha]
  rw [mul_comm Complex.I, Complex.exp_mul_I]
  have h2 : (180 : ℝ) * (Real.pi / 180) = Real.pi := by
    rw [mul_comm]
    exact div_mul_cancel₀ Real.pi (by norm_num)
  have h3 : (-180 : ℝ) * (Real.pi / 180) = -Real.pi := by
    rw [show ((-180 : ℝ)) = -(180 : ℝ) by norm_num, neg_mul, h2]
  have hmem : radians p ∈ Set.Ioc (-Real.pi) Real.pi := by
    constructor
    · show -Real.pi < p * (Real.pi / 180)
      have hb := mul_lt_mul_of_pos_right hp1 (show (0 : ℝ) < Real.pi / 180 by positivity)
      rw [h3] at hb
      exact hb
    · show p * (Real.pi / 180) ≤ Real.pi
      have hb := mul_le_mul_of_nonneg_right hp2
        (show (0 : ℝ) ≤ Real.pi / 180 by positivity)
      rw [h2] at hb
      exact hb
  rw [Complex.arg_cos_add_sin_mul_I hmem]
  unfold rad2deg radians
  field_simp

/-- Matrix-level resistivity round trip. -/
lemma res_roundtrip_mat (f : ℝ) (rm pm : Mat2 ℝ) (hf : 0 < f)
    (hr : rm.Forall (fun r => 0 ≤ r)) :
    Mat2.map (fun c => Complex.abs c ^ 2 / f * 0.2)
      (Mat2.zipWith (fun (a p : ℝ) =>
          Complex.ofReal a * Complex.exp (Complex.I * Complex.ofReal (radians p)))
        (Mat2.map (fun r => Real.sqrt (5.0 * f * r)) rm) pm) = rm := by
  obtain ⟨h1, h2, h3, h4⟩ := hr
  cases rm
  cases pm
  simp only [Mat2.map, Mat2.zipWith, Mat2.mk.injEq]
  exact ⟨res_roundtrip_entry f _ _ hf h1, res_roundtrip_entry f _ _ hf h2,
    res_roundtrip_entry f _ _ hf h3, res_roundtrip_entry f _ _ hf h4⟩

/-- Matrix-level phase round trip. -/
lemma phase_roundtrip_mat (f : ℝ) (rm pm : Mat2 ℝ) (hf : 0 < f)
    (hr : rm.Forall (fun r => 0 < r))
    (hp : pm.Forall (fun p => -180 < p ∧ p ≤ 180)) :
    Mat2.map (fun c => rad2deg (Complex.arg c))
      (Mat2.zipWith (fun (a p : ℝ) =>
          Complex.ofReal a * Complex.exp (Complex.I * Complex.ofReal (radians p)))
        (Mat2.map (fun r => Real.sqrt (5.0 * f * r)) rm) pm) = pm := by
  obtain ⟨h1, h2, h3, h4⟩ := hr
  obtain ⟨q1, q2, q3, q4⟩ := hp
  cases rm
  cases pm
  simp only [Mat2.map, Mat2.zipWith, Mat2.mk.injEq]
  exact ⟨phase_roundtrip_entry f _ _ hf h1 q1.1 q1.2,
    phase_roundtrip_entry f _ _ hf h2 q2.1 q2.2,
    phase_roundtrip_entry f _ _ hf h3 q3.1 q3.2,
    phase_roundtrip_entry f _ _ hf h4 q4.1 q4.2⟩

/-- List-level resistivity round trip through the reconstruction. -/
lemma res_roundtrip_list : ∀ (freq : List ℝ) (res pha : List (Mat2 ℝ)),
    res.length = freq.length → pha.length = freq.length →
    (∀ f ∈ freq, 0 < f) → (∀ m ∈ res, Mat2.Forall (fun r => 0 ≤ r) m) →
    List.zipWith (fun zm f => Mat2.map (fun c => Complex.abs c ^ 2 / f * 0.2) zm)
      (List.zipWith (fun am pm => Mat2.zipWith (fun (a p : ℝ) =>
          Complex.ofReal a * Complex.exp (Complex.I * Complex.ofReal (radians p)))
          am pm)
        (List.zipWith (fun f rm =>
          Mat2.map (fun r => Real.sqrt (5.0 * f * r)) rm) freq res) pha)
      freq = res := by
  intro freq
  induction freq with
  | nil =>
    intro res pha hl1 hl2
    cases res with
    | nil => intro _ _; rfl
    | cons a t => simp at hl1
  | cons f ft ih =>
    intro res pha hl1 hl2 hf hr
    cases res with
    | nil => simp at hl1
    | cons rm rt =>
      cases pha with
      | nil => simp at hl2
      | cons pm pt =>
        simp only [List.zipWith, List.cons.injEq]
        constructor
        · exact res_roundtrip_mat f rm pm (hf f (by simp))
            (hr rm (by simp))
        · exact ih rt pt (by simpa using hl1) (by simpa using hl2)
            (fun x hx => hf x (by simp [hx]))
            (fun m hm => hr m (by simp [hm]))

/-- List-level phase round trip through the reconstruction. -/
lemma phase_roundtrip_list : ∀ (freq : List ℝ) (res pha : List (Mat2 ℝ)),
    res.length = freq.length → pha.length = freq.length →
    (∀ f ∈ freq, 0 < f) → (∀ m ∈ res, Mat2.Forall (fun r => 0 < r) m) →
    (∀ m ∈ pha, Mat2.Forall (fun p => -180 < p ∧ p ≤ 180) m) →
    (List.zipWith (fun am pm => Mat2.zipWith (fun (a p : ℝ) =>
          Complex.ofReal a * Complex.exp (Complex.I * Complex.ofReal (radians p)))
          am pm)
        (List.zipWith (fun f rm =>
          Mat2.map (fun r => Real.sqrt (5.0 * f * r)) rm) freq res) pha).map
      (fun zm => Mat2.map (fun c => rad2deg (Complex.arg c)) zm) = pha := by
  intro freq
  induction freq with
  | nil =>
    intro res pha hl1 hl2 _ _ _
    cases res with
    | nil =>
      cases pha with
      | nil => rfl
      | cons a t => simp at hl2
    | cons a t => simp at hl1
  | cons f ft ih =>
    intro res pha hl1 hl2 hf hr hp
    cases res with
    | nil => simp at hl1
    | cons rm rt =>
      cases pha with
      | nil => simp at hl2
      | cons pm pt =>
        simp only [List.zipWith, List.map, List.cons.injEq]
        constructor
        · exact phase_roundtrip_mat f rm pm (hf f (by simp))
            (hr rm (by simp)) (hp pm (by simp))
        · exact ih rt pt (by simpa using hl1) (by simpa using hl2)
            (fun x hx => hf x (by simp [hx]))
            (fun m hm => hr m (by simp [hm]))
            (fun m hm => hp m (by simp [hm]))

/-- Assigning `None` through the `z_error` setter quietly returns. -/
lemma set_z_error_none (s : ZState) : s.set_z_error none = .ok s := by
  simp [ZState.set_z_error, validate_array_input]

/-- Assigning `None` through the `z_model_error` setter quietly returns. -/
lemma set_z_model_error_none (s : ZState) : s.set_z_model_error none = .ok s := by
  simp [ZState.set_z_model_error, validate_array_input]

/-- C3 (amended): for positive frequencies, STRICTLY positive resistivities
and phases in (-180, 180], `set_resistivity_phase` followed by reading
the `resistivity` and `phase` properties reproduces the inputs exactly
(the constants 5 and 0.2 cancel since 5·0.2 = 1).  Strict positivity is
required: a zero resistivity entry reconstructs a zero tensor entry,
whose phase reads back 0 regardless of the input phase. -/
theorem C3_set_resistivity_phase_roundtrip_amended (u : String) (freq : List ℝ)
    (res pha : List (Mat2 ℝ)) (s0 : ZState)
    (hmk : Z_mk none none none none u = .ok s0)
    (hlen1 : res.length = freq.length) (hlen2 : pha.length = freq.length)
    (hf : ∀ f ∈ freq, 0 < f)
    (hr : ∀ m ∈ res, Mat2.Forall (fun r => 0 < r) m)
    (hp : ∀ m ∈ pha, Mat2.Forall (fun p => -180 < p ∧ p ≤ 180) m) :
    ∃ s2, s0.set_resistivity_phase (some res) (some pha) (some freq) = .ok s2 ∧
      s2.resistivity = some res ∧ s2.phase = some pha := by
  have hu : unitsOk u = true := by
    by_contra h
    simp [Z_mk, h] at hmk
  rw [Z_mk_empty hu] at hmk
  cases hmk
  have hlz : (List.zipWith (fun (am pm : Mat2 ℝ) => Mat2.zipWith (fun (a p : ℝ) =>
        Complex.ofReal a * Complex.exp (Complex.I * Complex.ofReal (radians p)))
        am pm)
      (List.zipWith (fun f rm =>
        Mat2.map (fun r => Real.sqrt (5.0 * f * r)) rm) freq res) pha).length =
      freq.length := by
    simp [List.length_zipWith, hlen1, hlen2]
  refine ⟨⟨u, some (List.zipWith (fun (am pm : Mat2 ℝ) => Mat2.zipWith (fun (a p : ℝ) =>
      Complex.ofReal a * Complex.exp (Complex.I * Complex.ofReal (radians p)))
      am pm)
    (List.zipWith (fun f rm =>
      Mat2.map (fun r => Real.sqrt (5.0 * f * r)) rm) freq res) pha),
    none, none, some freq⟩, ?_, ?_, ?_⟩
  · simp only [ZState.set_resistivity_phase]
    rw [if_pos hf]
    have hset : ZState.set_z ⟨u, none, none, none, some freq⟩
        (some (List.zipWith (fun (am pm : Mat2 ℝ) => Mat2.zipWith (fun (a p : ℝ) =>
            Complex.ofReal a * Complex.exp (Complex.I * Complex.ofReal (radians p)))
            am pm)
          (List.zipWith (fun f rm =>
            Mat2.map (fun r => Real.sqrt (5.0 * f * r)) rm) freq res) pha)) =
        .ok ⟨u, some (List.zipWith (fun (am pm : Mat2 ℝ) => Mat2.zipWith (fun (a p : ℝ) =>
            Complex.ofReal a * Complex.exp (Complex.I * Complex.ofReal (radians p)))
            am pm)
          (List.zipWith (fun f rm =>
            Mat2.map (fun r => Real.sqrt (5.0 * f * r)) rm) freq res) pha),
          none, none, some freq⟩ := by
      simp [ZState.set_z, ZState.hasTF, ZState.hasFrequency, validate_array_input,
        hlz, ZState.isEmpty, ZState.hasTFError, ZState.hasTFModelError]
    rw [hset]
    simp only [compute_z_error, set_z_error_none, set_z_model_error_none]
  · rw [(resistivity_phase_canonical _ _ freq rfl rfl).1]
    rw [res_roundtrip_list freq res pha hlen1 hlen2 hf
      (fun m hm => ⟨(hr m hm).1.le, (hr m hm).2.1.le,
        (hr m hm).2.2.1.le, (hr m hm).2.2.2.le⟩)]
  · rw [(resistivity_phase_canonical _ _ freq rfl rfl).2]
    rw [phase_roundtrip_list freq res pha hlen1 hlen2 hf hr hp]

/-- C3 (counterexample): with the merely NONNEGATIVE resistivity array
`[[0,0],[0,0]]` and phase `[[90,90],[90,90]]` at frequency `[1]`, the
reconstruction stores the zero tensor, whose phase reads back 0, not 90
— so the round trip fails for nonnegative (as opposed to positive)
resistivities. -/
theorem C3_set_resistivity_phase_counterexample :
    Except.map ZState.phase
      ((Z_mk none none none none ("mt")).bind (fun s0 =>
        s0.set_resistivity_phase (some [Mat2.mk 0 0 0 0])
          (some [Mat2.mk 90 90 90 90]) (some [1]))) ≠
      .ok (some [Mat2.mk (90 : ℝ) 90 90 90]) := by
  rw [Z_mk_empty unitsOk_mt]
  have hone : ∀ f ∈ [(1 : ℝ)], 0 < f := by
    intro f hf
    rw [List.mem_singleton] at hf
    subst hf
    norm_num
  have hzero : (List.zipWith (fun (am pm : Mat2 ℝ) => Mat2.zipWith (fun (a p : ℝ) =>
      Complex.ofReal a * Complex.exp (Complex.I * Complex.ofReal (radians p)))
      am pm)
    (List.zipWith (fun f rm =>
      Mat2.map (fun r => Real.sqrt (5.0 * f * r)) rm) [(1 : ℝ)] [Mat2.mk 0 0 0 0])
    [Mat2.mk 90 90 90 90]) = [Mat2.mk 0 0 0 0] := by
    simp [List.zipWith, Mat2.map, Mat2.zipWith, mul_zero, Real.sqrt_zero]
  have heval : ZState.set_resistivity_phase ⟨"mt", none, none, none, none⟩
      (some [Mat2.mk 0 0 0 0]) (some [Mat2.mk 90 90 90 90]) (some [1]) =
      .ok ⟨"mt", some [Mat2.mk 0 0 0 0], none, none, some [1]⟩ := by
    simp only [ZState.set_resistivity_phase]
    rw [if_pos hone]
    rw [hzero]
    have hset : ZState.set_z ⟨"mt", none, none, none, some [1]⟩
        (some [Mat2.mk 0 0 0 0]) =
        .ok ⟨"mt", some [Mat2.mk 0 0 0 0], none, none, some [1]⟩ := by
      simp [ZState.set_z, ZState.hasTF, ZState.hasFrequency, validate_array_input,
        ZState.isEmpty, ZState.hasTFError, ZState.hasTFModelError]
    rw [hset]
    simp only [compute_z_error, set_z_error_none, set_z_model_error_none]
  simp only [Except.bind, heval]
  have hpha : ZState.phase ⟨"mt", some [Mat2.mk 0 0 0 0], none, none, some [1]⟩ =
      some [Mat2.mk (0 : ℝ) 0 0 0] := by
    rw [(resistivity_phase_canonical _ [Mat2.mk 0 0 0 0] [1] rfl rfl).2]
    simp [Mat2.map, Complex.arg_zero, rad2deg]
  simp only [Except.map, hpha]
  intro hcontra
  have h0 := Option.some.inj (Except.ok.inj hcontra)
  have h1 : (Mat2.mk (0 : ℝ) 0 0 0) = Mat2.mk (90 : ℝ) 90 90 90 :=
    (List.cons.injEq _ _ _ _).mp h0 |>.1
  have h2 := congrArg Mat2.xx h1
  norm_num at h2

/-- Witness for the amended C3 at a concrete input. -/
theorem C3_set_resistivity_phase_roundtrip_witness :
    Z_mk none none none none ("mt") = .ok ⟨"mt", none, none, none, none⟩ ∧
    ([Mat2.mk (2 : ℝ) 2 2 2].length = [(1 : ℝ)].length) ∧
    (∀ f ∈ [(1 : ℝ)], 0 < f) ∧
    (∀ m ∈ [Mat2.mk (2 : ℝ) 2 2 2], Mat2.Forall (fun r => 0 < r) m) ∧
    (∀ m ∈ [Mat2.mk (45 : ℝ) 45 45 45],
      Mat2.Forall (fun p => -180 < p ∧ p ≤ 180) m) ∧
    (∃ s2, ZState.set_resistivity_phase ⟨"mt", none, none, none, none⟩
        (some [Mat2.mk 2 2 2 2]) (some [Mat2.mk 45 45 45 45]) (some [1]) = .ok s2 ∧
      s2.resistivity = some [Mat2.mk 2 2 2 2] ∧
      s2.phase = some [Mat2.mk 45 45 45 45]) := by
  have hf : ∀ f ∈ [(1 : ℝ)], 0 < f := by
    intro f hf
    rw [List.mem_singleton] at hf
    subst hf
    norm_num
  have hr : ∀ m ∈ [Mat2.mk (2 : ℝ) 2 2 2], Mat2.Forall (fun r => 0 < r) m := by
    intro m hm
    rw [List.mem_singleton] at hm
    subst hm
    exact ⟨by norm_num, by norm_num, by norm_num, by norm_num⟩
  have hp : ∀ m ∈ [Mat2.mk (45 : ℝ) 45 45 45],
      Mat2.Forall (fun p => -180 < p ∧ p ≤ 180) m := by
    intro m hm
    rw [List.mem_singleton] at hm
    subst hm
    refine ⟨⟨?_, ?_⟩, ⟨?_, ?_⟩, ⟨?_, ?_⟩, ⟨?_, ?_⟩⟩ <;> norm_num
  exact ⟨Z_mk_empty unitsOk_mt, rfl, hf, hr, hp,
    C3_set_resistivity_phase_roundtrip_amended ("mt") [1] [Mat2.mk 2 2 2 2]
      [Mat2.mk 45 45 45 45] _ (Z_mk_empty unitsOk_mt) rfl rfl hf hr hp⟩

end MtpyZ
